import Mathlib

/-!
Verification development for the neovim-gtk presentation core.

Definitions below are a shallow embedding of the two source files of the
repository: src/ui.rs (highlight-attribute resolution, color decomposition,
key forwarding, the thread-local UI singleton) and src/render/mod.rs (the
shape phase and the paint phase of the render pipeline).  Machine floats of
the source are modelled exactly as rationals; machine integers fit in Nat.

Modules that the source files call but whose code is not part of the
repository snapshot (ui_model, color, context, cursor) are modelled from the
specification; each such definition carries a doc comment starting with
"Modelled from the spec".  Stateful loops of the source are translated into
explicit state passing (explicit accumulator parameters and fuel counters
that mirror the loop bounds).
-/

set_option linter.unusedVariables false

/-- Color is a triple of normalized components; the source uses f64
components, modelled exactly as rationals. -/
structure Color where
  r : ℚ
  g : ℚ
  b : ℚ
deriving DecidableEq

/-- Attrs is the resolved attribute set of a cell: bold, italic and the two
colors, as in ui_model (fields mirror the uses in src/ui.rs). -/
structure Attrs where
  italic : Bool
  bold : Bool
  foreground : Color
  background : Color
deriving DecidableEq

/-- Modelled from the spec: the built-in default attribute set produced by
Attrs::new in the missing ui_model module.  Bold and italic are off; the
frame paints a black background and white foreground by default
(src/ui.rs lines 114 to 116), so the defaults are white on black. -/
def Attrs.new : Attrs :=
  { italic := false, bold := false, foreground := ⟨1, 1, 1⟩, background := ⟨0, 0, 0⟩ }

/-- Integer mirrors rmp::value::Integer: an unsigned or signed 64-bit
payload. -/
inductive MsgInteger where
  | U64 (n : Nat)
  | I64 (n : Int)
deriving DecidableEq

/-- Value mirrors the subset of rmp::Value shapes relevant to the attribute
maps: integers plus arbitrary other shapes. -/
inductive Value where
  | Integer (i : MsgInteger)
  | Boolean (b : Bool)
  | Str (s : String)
  | Nil
deriving DecidableEq

/-- Checks whether a msgpack value is an unsigned integer, the only shape
the highlight handler accepts for colors. -/
def Value.isU64 : Value → Bool
  | .Integer (.U64 _) => true
  | _ => false

def keyForeground : String := "foreground"

def keyBackground : String := "background"

def keyReverse : String := "reverse"

def keyBold : String := "bold"

def keyItalic : String := "italic"

/-- Keys recognized by the highlight-set handler in src/ui.rs. -/
def recognizedHighlightKeys : List String :=
  [keyForeground, keyBackground, keyReverse, keyBold, keyItalic]

/-- Embedding of split_color (src/ui.rs lines 204 to 209): decompose a packed
integer into the three byte channels and build a Color.  The source divides
255.0 by each channel, exactly as written here over rationals. -/
def split_color (indexed_color : Nat) : Color :=
  let r : ℚ := (((indexed_color >>> 16) &&& 0xff : Nat) : ℚ)
  let g : ℚ := (((indexed_color >>> 8) &&& 0xff : Nat) : ℚ)
  let b : ℚ := ((indexed_color &&& 0xff : Nat) : ℚ)
  ⟨255 / r, 255 / g, 255 / b⟩

/-- Embedding of the body of on_highlight_set (src/ui.rs lines 187 to 201):
the attribute map is a key-value list (the HashMap of the source), lookup is
by key; a foreground or background entry is used only when its value is an
unsigned integer; a reverse key swaps the two colors; bold and italic are
set from key presence. -/
def resolveHighlightAttrs (attrs : List (String × Value)) : Attrs :=
  let model_attrs := Attrs.new
  let model_attrs :=
    match List.lookup keyForeground attrs with
    | some (Value.Integer (MsgInteger.U64 fg)) =>
      { model_attrs with foreground := split_color fg }
    | _ => model_attrs
  let model_attrs :=
    match List.lookup keyBackground attrs with
    | some (Value.Integer (MsgInteger.U64 bg)) =>
      { model_attrs with background := split_color bg }
    | _ => model_attrs
  let model_attrs :=
    if (List.lookup keyReverse attrs).isSome then
      { model_attrs with foreground := model_attrs.background,
                         background := model_attrs.foreground }
    else model_attrs
  { model_attrs with bold := (List.lookup keyBold attrs).isSome,
                     italic := (List.lookup keyItalic attrs).isSome }

/-- Removes every entry with the given key from an attribute map; stands for
the same map with that key absent. -/
def eraseAll (m : List (String × Value)) (k : String) : List (String × Value) :=
  m.filter (fun p => !(p.1 == k))

/-- Cell is one character position of the grid: display character, resolved
attributes and the dirty flag (spec section 3). -/
structure Cell where
  ch : Char
  attrs : Attrs
  dirty : Bool
deriving DecidableEq

/-- Modelled from the spec: a blank cell with default attributes, dirty
because it is not yet reflected in a shaping pass. -/
def Cell.blank : Cell :=
  ⟨' ', Attrs.new, true⟩

/-- Item is a styled run: its offset and length inside the flattened line
text and the shaped glyph sequence, absent until shaping runs (spec
section 3; the monospace model puts one character per cell, so the length in
text equals the length in cells). -/
structure Item where
  offset : Nat
  length : Nat
  glyphs : Option (List Nat)
deriving DecidableEq

/-- Line is a fixed row of cells, the parallel item_line mapping each column
to a styled run started there or nothing, and the line-level dirty flag
(spec section 3, fields used in src/render/mod.rs). -/
structure Line where
  line : List Cell
  item_line : List (Option Item)
  dirty_line : Bool
deriving DecidableEq

/-- A line with no columns; also the out-of-range default of accessors. -/
def Line.empty : Line :=
  ⟨[], [], false⟩

/-- Reads the cell at a column, as line[i] in the source. -/
def Line.cellAt (l : Line) (i : Nat) : Cell :=
  l.line.getD i Cell.blank

/-- Modelled from the spec: get_item_mut of the missing ui_model returns the
run whose start column is the given cell, when one is recorded there. -/
def Line.get_item (l : Line) (i : Nat) : Option Item :=
  l.item_line.getD i none

/-- Writes the dirty flag of the cell at a column, as the assignment
line[i].dirty = false of the source. -/
def Line.setCellDirty (l : Line) (i : Nat) (b : Bool) : Line :=
  ⟨l.line.set i { l.line.getD i Cell.blank with dirty := b }, l.item_line, l.dirty_line⟩

/-- Attaches a shaped glyph sequence to the run starting at a column, as
item.set_glyphs of the source; cells are untouched. -/
def Line.setItemGlyphs (l : Line) (i : Nat) (gs : List Nat) : Line :=
  ⟨l.line, l.item_line.set i ((l.item_line.getD i none).map
    (fun it => { it with glyphs := some gs })), l.dirty_line⟩

/-- Modelled from the spec: run length in cells from its start column,
item_len_from_idx of the missing ui_model; in the monospace model the item
length is its cell count. -/
def Line.item_len_from_idx (l : Line) (col : Nat) : Nat :=
  match l.item_line.getD col none with
  | some it => it.length
  | none => 1

/-- Modelled from the spec: is_binded_to_item of the missing ui_model is
true when the column lies strictly inside a run started at an earlier
column. -/
def Line.is_binded_to_item (l : Line) (col : Nat) : Bool :=
  (List.range col).any fun c =>
    match l.item_line.getD c none with
    | some it => decide (col < c + it.length)
    | none => false

/-- Modelled from the spec: the color model resolves colors from attribute
state; it carries the default background and foreground of the frame. -/
structure ColorModel where
  bg_color : Color
  fg_color : Color
deriving DecidableEq

/-- Modelled from the spec: cell_colors returns the resolved pair; the
background is absent when the cell uses the default frame background, so
the redundant fill is skipped. -/
def ColorModel.cell_colors (cm : ColorModel) (cell : Cell) : Option Color × Color :=
  (if cell.attrs.background = cm.bg_color then none else some cell.attrs.background,
   cell.attrs.foreground)

/-- Modelled from the spec: background-only resolution for cells with no
shaped glyph. -/
def ColorModel.cell_bg (cm : ColorModel) (cell : Cell) : Option Color :=
  if cell.attrs.background = cm.bg_color then none else some cell.attrs.background

/-- Modelled from the spec: the background color rendered under the cursor,
independent of the default-background optimization. -/
def ColorModel.actual_cell_bg (cm : ColorModel) (cell : Cell) : Color :=
  cell.attrs.background

/-- RunKey is the resolved attribute set by which adjacent cells are grouped
into runs: resolved color pair plus bold and italic. -/
abbrev RunKey := (Option Color × Color) × Bool × Bool

/-- StyledLine is the flattened representation of one line handed to
itemization: the concatenated text and the per-cell resolved keys (spec
section 4.2). -/
structure StyledLine where
  line_str : List Char
  cell_runs : List RunKey
deriving DecidableEq

/-- Modelled from the spec: StyledLine::from flattens a line using the color
model to resolve each cell. -/
def StyledLine.fromLine (l : Line) (cm : ColorModel) : StyledLine :=
  ⟨l.line.map (fun c => c.ch),
   l.line.map (fun c => (cm.cell_colors c, c.attrs.bold, c.attrs.italic))⟩

/-- Groups a list of per-cell keys into maximal runs of equal keys,
returning offset, length and key of each run in order. -/
def runsFrom : List RunKey → Nat → List (Nat × Nat × RunKey)
  | [], _ => []
  | k :: rest, off =>
    match runsFrom rest (off + 1) with
    | [] => [(off, 1, k)]
    | r :: tail =>
      if r.2.2 = k then (off, r.2.1 + 1, k) :: tail
      else (off, 1, k) :: r :: tail

/-- Modelled from the spec: itemization partitions the styled line into
maximal same-attribute runs (spec section 4.2). -/
def itemize (styled : StyledLine) : List (Nat × Nat × RunKey) :=
  runsFrom styled.cell_runs 0

/-- Builds the new item_line from a fresh run list: a run descriptor at each
run start column, nothing elsewhere; a run unchanged in place keeps the
previously shaped glyphs (the cache hit of spec section 4.2). -/
def buildItemLine (old : List (Option Item)) (len : Nat)
    (items : List (Nat × Nat × RunKey)) : List (Option Item) :=
  (List.range len).map fun col =>
    match items.find? (fun r => r.1 == col) with
    | some r =>
      let keep :=
        match old.getD col none with
        | some oldIt =>
          if oldIt.offset = r.1 ∧ oldIt.length = r.2.1 then oldIt.glyphs else none
        | none => none
      some ⟨r.1, r.2.1, keep⟩
    | none => none

/-- Modelled from the spec: merge replaces the item_line mapping of the line
with the fresh run list, leaving the cells untouched (spec section 4.2). -/
def Line.merge (l : Line) (styled : StyledLine) (items : List (Nat × Nat × RunKey)) : Line :=
  ⟨l.line, buildItemLine l.item_line l.line.length items, l.dirty_line⟩

/-- Modelled from the spec: shaping is a pure, deterministic and total
function of the text span; the glyph sequence is modelled as the character
codes of the span. -/
def pango_shape (line_str : List Char) (offset length : Nat) : List Nat :=
  ((line_str.drop offset).take length).map Char.toNat

/-- UiModel is the grid: the lines, the display cursor and the internal
write cursor (spec section 3; the structure is the missing ui_model module,
modelled from the spec). -/
structure UiModel where
  model : List Line
  cursor_row : Nat
  cursor_col : Nat
  write_row : Nat
  write_col : Nat
deriving DecidableEq

/-- Modelled from the spec: a fresh blank grid of the given dimensions; all
lines start dirty (spec section 4.1). -/
def UiModel.new (rows columns : Nat) : UiModel :=
  ⟨List.replicate rows ⟨List.replicate columns Cell.blank, List.replicate columns none, true⟩,
   0, 0, 0, 0⟩

/-- Embedding of UiModel::empty used by Ui::new (src/ui.rs line 39). -/
def UiModel.empty : UiModel :=
  UiModel.new 0 0

/-- Modelled from the spec: set_cursor updates the display cursor position
and marks nothing dirty (spec section 4.1). -/
def UiModel.set_cursor (m : UiModel) (row col : Nat) : UiModel :=
  ⟨m.model, row, col, m.write_row, m.write_col⟩

/-- Modelled from the spec: the read accessor for the display cursor used by
the paint phase (src/render/mod.rs line 39). -/
def UiModel.get_cursor (m : UiModel) : Nat × Nat :=
  (m.cursor_row, m.cursor_col)

/-- Writes the characters into the cell list from the given column,
truncating silently at the line bound; every written cell becomes dirty
(spec section 4.1). -/
def putLine (cells : List Cell) (col : Nat) (text : List Char) (a : Attrs) : List Cell :=
  match text with
  | [] => cells
  | ch :: rest =>
    if col < cells.length then
      putLine (cells.set col ⟨ch, a, true⟩) (col + 1) rest a
    else cells

/-- Modelled from the spec: put writes the text at the internal write
cursor with the supplied attributes or the defaults, advances the write
position, truncates at the line bound and marks the touched line dirty
(spec section 4.1). -/
def UiModel.put (m : UiModel) (text : List Char) (attrs : Option Attrs) : UiModel :=
  let a := attrs.getD Attrs.new
  let l := m.model.getD m.write_row Line.empty
  let touched := !text.isEmpty && decide (m.write_col < l.line.length)
  let l2 : Line := ⟨putLine l.line m.write_col text a, l.item_line, l.dirty_line || touched⟩
  ⟨m.model.set m.write_row l2, m.cursor_row, m.cursor_col, m.write_row,
   m.write_col + text.length⟩

/-- Modelled from the spec: clear resets every cell to blank defaults and
marks every line dirty (spec section 4.1). -/
def UiModel.clear (m : UiModel) : UiModel :=
  ⟨m.model.map (fun l =>
     ⟨List.replicate l.line.length Cell.blank, List.replicate l.line.length none, true⟩),
   m.cursor_row, m.cursor_col, m.write_row, m.write_col⟩

/-- Ui is the grid model together with the pending attribute set used by
subsequent puts (src/ui.rs lines 29 to 34; the toolkit handles and the
editor-process handle are out of scope per spec section 1). -/
structure Ui where
  model : UiModel
  cur_attrs : Option Attrs
deriving DecidableEq

/-- Embedding of Ui::new (src/ui.rs lines 37 to 44): empty model, no pending
attributes. -/
def Ui.new : Ui :=
  ⟨UiModel.empty, none⟩

/-- Embedding of on_cursor_goto (src/ui.rs lines 167 to 169). -/
def Ui.on_cursor_goto (u : Ui) (row col : Nat) : Ui :=
  ⟨u.model.set_cursor row col, u.cur_attrs⟩

/-- Embedding of on_put (src/ui.rs lines 171 to 173): writes with the
pending attribute set. -/
def Ui.on_put (u : Ui) (text : List Char) : Ui :=
  ⟨u.model.put text u.cur_attrs, u.cur_attrs⟩

/-- Embedding of on_clear (src/ui.rs lines 175 to 177). -/
def Ui.on_clear (u : Ui) : Ui :=
  ⟨u.model.clear, u.cur_attrs⟩

/-- Embedding of on_resize (src/ui.rs lines 179 to 181): the model is
replaced wholesale. -/
def Ui.on_resize (u : Ui) (columns rows : Nat) : Ui :=
  ⟨UiModel.new rows columns, u.cur_attrs⟩

/-- Embedding of on_highlight_set (src/ui.rs lines 187 to 201): the pending
attribute set is rebuilt from the event map alone. -/
def Ui.on_highlight_set (u : Ui) (attrs : List (String × Value)) : Ui :=
  ⟨u.model, some (resolveHighlightAttrs attrs)⟩

/-- RedrawEvent is the abstract incremental update set of spec section 6,
the events src/ui.rs handles. -/
inductive RedrawEvent where
  | cursor_goto (row col : Nat)
  | put (text : List Char)
  | clear
  | resize (columns rows : Nat)
  | highlight_set (attrs : List (String × Value))
deriving DecidableEq

/-- Applies one incoming event through the corresponding handler. -/
def Ui.applyEvent (u : Ui) : RedrawEvent → Ui
  | .cursor_goto row col => u.on_cursor_goto row col
  | .put text => u.on_put text
  | .clear => u.on_clear
  | .resize columns rows => u.on_resize columns rows
  | .highlight_set attrs => u.on_highlight_set attrs

/-- Applies a sequence of incoming events in order. -/
def Ui.applyEvents (evs : List RedrawEvent) (u : Ui) : Ui :=
  evs.foldl Ui.applyEvent u

/-- Embedding of the inner cell loop of shape_dirty (src/render/mod.rs lines
106 to 127): the fuel counter is the loop bound, i the loop index; a dirty
cell that starts a run gets freshly shaped glyphs, and every visited cell
has its dirty flag cleared. -/
def shapeCells (styled : StyledLine) : Nat → Nat → Line → Line
  | 0, _, l => l
  | n + 1, i, l =>
    let l1 :=
      if (l.cellAt i).dirty then
        match l.get_item i with
        | some item => l.setItemGlyphs i (pango_shape styled.line_str item.offset item.length)
        | none => l
      else l
    shapeCells styled n (i + 1) (l1.setCellDirty i false)

/-- Embedding of the per-line body of shape_dirty (src/render/mod.rs lines
100 to 130): a dirty line is re-itemized, merged, its dirty cells shaped,
all cell dirty flags cleared and the line flag dropped; a clean line is
skipped. -/
def shapeLine (cm : ColorModel) (l : Line) : Line :=
  if l.dirty_line then
    let styled := StyledLine.fromLine l cm
    let items := itemize styled
    let l1 := l.merge styled items
    let l2 := shapeCells styled l1.line.length 0 l1
    ⟨l2.line, l2.item_line, false⟩
  else l

/-- Embedding of shape_dirty (src/render/mod.rs lines 95 to 132): the shape
pass over every line of the model. -/
def shape_dirty (cm : ColorModel) (m : UiModel) : UiModel :=
  ⟨m.model.map (shapeLine cm), m.cursor_row, m.cursor_col, m.write_row, m.write_col⟩

/-- Instrumented inner loop of shape_dirty: identical control flow, plus a
counter incremented at every shaping call. -/
def shapeCellsInstr (styled : StyledLine) : Nat → Nat → Line → Nat → Line × Nat
  | 0, _, l, cnt => (l, cnt)
  | n + 1, i, l, cnt =>
    let p :=
      if (l.cellAt i).dirty then
        match l.get_item i with
        | some item =>
          (l.setItemGlyphs i (pango_shape styled.line_str item.offset item.length), cnt + 1)
        | none => (l, cnt)
      else (l, cnt)
    shapeCellsInstr styled n (i + 1) (p.1.setCellDirty i false) p.2

/-- Instrumented per-line shape pass: identical control flow to shapeLine,
plus a work counter incremented at the itemization call and at every
shaping call, so that zero cost means no itemization and no shaping ran. -/
def shapeLineInstr (cm : ColorModel) (l : Line) : Line × Nat :=
  if l.dirty_line then
    let styled := StyledLine.fromLine l cm
    let items := itemize styled
    let p := shapeCellsInstr styled l.line.length 0 (l.merge styled items) 1
    (⟨p.1.line, p.1.item_line, false⟩, p.2)
  else (l, 0)

/-- Embedding of the key forwarding rule of gtk_key_press (src/ui.rs lines
94 to 108): the key name is its character sequence; a name carrying the
keypad marker loses its first three characters, every other name passes
verbatim. -/
def gtk_key_press (keyval_name : List Char) : List Char :=
  if List.isPrefixOf ['K', 'P', '_'] keyval_name then keyval_name.drop 3
  else keyval_name

def mainThreadTag : String := "<main>"

def uiPanicMsg : String := "Can create UI  only from main thread"

/-- Modelled from the spec: the runtime name of the single UI owner thread,
the string the construction-time check of src/ui.rs line 23 compares
against. -/
def main_thread_name : Option String :=
  some mainThreadTag

/-- Embedding of the thread-local UI initializer (src/ui.rs lines 20 to 27):
construction on a thread whose name is not the main-thread name panics,
modelled as an error carrying the panic message; otherwise Ui::new is
constructed. -/
def UI_init (current_thread_name : Option String) : Except String Ui :=
  if current_thread_name ≠ some mainThreadTag then Except.error uiPanicMsg
  else Except.ok Ui.new

/-- Modelled from the spec: the fixed cell metrics of the font context of
spec section 3, read-only constants for the paint phase. -/
structure CellMetrics where
  line_height : ℚ
  char_width : ℚ
  ascent : ℚ
deriving DecidableEq

/-- DrawOp is one operation painted into the drawing surface: the
full-surface clear, a background rectangle fill, a shaped glyph run, or the
cursor overlay. -/
inductive DrawOp where
  | paintAll (color : Color)
  | fill (x y w h : ℚ) (color : Color)
  | glyphs (x y : ℚ) (color : Color) (gs : List Nat)
  | cursor (x y : ℚ) (bg : Color)
deriving DecidableEq

/-- Recognizes the cursor overlay operation. -/
def DrawOp.isCursor : DrawOp → Bool
  | .cursor _ _ _ => true
  | _ => false

/-- RenderState is the explicit state threaded through the paint phase: the
grid model and the surface, the latter as the list of operations painted so
far. -/
structure RenderState where
  grid : UiModel
  ops : List DrawOp
deriving DecidableEq

/-- Embedding of the per-cell paint body of render (src/render/mod.rs lines
47 to 75): a run start fills the run background over the full run width and
draws its glyphs at the baseline; a column inside a run paints nothing; an
uncovered column fills just its own background when one resolves. -/
def cellContentOps (cm : ColorModel) (ms : CellMetrics) (l : Line) (col : Nat)
    (line_x line_y : ℚ) : List DrawOp :=
  let cell := l.cellAt col
  match l.item_line.getD col none with
  | some item =>
    let bgfg := cm.cell_colors cell
    (match bgfg.1 with
     | some bg =>
       [DrawOp.fill line_x line_y (ms.char_width * (l.item_len_from_idx col : ℚ))
         ms.line_height bg]
     | none => []) ++
    (match item.glyphs with
     | some gs => [DrawOp.glyphs line_x (line_y + ms.ascent) bgfg.2 gs]
     | none => [])
  | none =>
    if l.is_binded_to_item col then []
    else
      match cm.cell_bg cell with
      | some bg => [DrawOp.fill line_x line_y ms.char_width ms.line_height bg]
      | none => []

/-- Embedding of the cursor check of render (src/render/mod.rs lines 77 to
87): at the display cursor cell, and only there, the cursor overlay is drawn
at the current cell origin over the actual cell background (cursor::draw is
modelled from the spec as the single overlay operation). -/
def cursorOpIf (cm : ColorModel) (crow ccol row col : Nat) (l : Line)
    (line_x line_y : ℚ) : List DrawOp :=
  if row = crow ∧ col = ccol then
    [DrawOp.cursor line_x line_y (cm.actual_cell_bg (l.cellAt col))]
  else []

/-- Operations emitted by the column loop of render for one line: fuel is
the remaining column count, col the loop index, x the accumulated pixel
position advancing one char_width per column. -/
def colsOps (cm : ColorModel) (ms : CellMetrics) (crow ccol row : Nat) (l : Line) :
    Nat → Nat → ℚ → ℚ → List DrawOp
  | 0, _, _, _ => []
  | n + 1, col, x, y =>
    cellContentOps cm ms l col x y ++ cursorOpIf cm crow ccol row col l x y ++
      colsOps cm ms crow ccol row l n (col + 1) (x + ms.char_width) y

/-- Operations emitted by the row loop of render: y advances one line_height
per row. -/
def rowsOps (cm : ColorModel) (ms : CellMetrics) (crow ccol : Nat) :
    List Line → Nat → ℚ → List DrawOp
  | [], _, _ => []
  | l :: rest, row, y =>
    colsOps cm ms crow ccol row l l.line.length 0 0 y ++
      rowsOps cm ms crow ccol rest (row + 1) (y + ms.line_height)

/-- Column loop of render with the explicit render state threaded through
every iteration, mirroring the statement sequence of src/render/mod.rs
lines 44 to 90. -/
def renderColsSt (cm : ColorModel) (ms : CellMetrics) (crow ccol row : Nat) (l : Line) :
    Nat → Nat → ℚ → ℚ → RenderState → RenderState
  | 0, _, _, _, st => st
  | n + 1, col, x, y, st =>
    renderColsSt cm ms crow ccol row l n (col + 1) (x + ms.char_width) y
      ⟨st.grid, st.ops ++ cellContentOps cm ms l col x y ++
        cursorOpIf cm crow ccol row col l x y⟩

/-- Row loop of render with the explicit render state threaded through
every iteration (src/render/mod.rs lines 41 to 92). -/
def renderRowsSt (cm : ColorModel) (ms : CellMetrics) (crow ccol : Nat) :
    List Line → Nat → ℚ → RenderState → RenderState
  | [], _, _, st => st
  | l :: rest, row, y, st =>
    renderRowsSt cm ms crow ccol rest (row + 1) (y + ms.line_height)
      (renderColsSt cm ms crow ccol row l l.line.length 0 0 y st)

/-- Embedding of render (src/render/mod.rs lines 15 to 93): paint the
default background over the whole surface, read the cursor position, then
run the row loop; the grid travels through the state untouched by any
statement. -/
def render (cm : ColorModel) (ms : CellMetrics) (st : RenderState) : RenderState :=
  let cpos := st.grid.get_cursor
  renderRowsSt cm ms cpos.1 cpos.2 st.grid.model 0 0
    ⟨st.grid, st.ops ++ [DrawOp.paintAll cm.bg_color]⟩

/-- Dirty-domination invariant of spec section 4.1 for one line: a dirty
cell implies the line-level dirty flag. -/
def Line.dirtyOk (l : Line) : Prop :=
  (∃ cell ∈ l.line, cell.dirty = true) → l.dirty_line = true

/-- Dirty-domination invariant over the whole grid. -/
def UiModel.dirtyOk (m : UiModel) : Prop :=
  ∀ l ∈ m.model, l.dirtyOk

/-- Full convergence predicate: no line flag and no cell flag set. -/
def UiModel.allClean (m : UiModel) : Prop :=
  ∀ l ∈ m.model, l.dirty_line = false ∧ ∀ cell ∈ l.line, cell.dirty = false

def witnessCM : ColorModel :=
  ⟨⟨0, 0, 0⟩, ⟨1, 1, 1⟩⟩

def witnessMS : CellMetrics :=
  ⟨16, 8, 12⟩

def witnessGrid : UiModel :=
  (UiModel.new 3 4).set_cursor 1 2

def witnessCleanLine : Line :=
  ⟨[⟨'x', Attrs.new, false⟩], [none], false⟩

def witnessCleanModel : UiModel :=
  ⟨[witnessCleanLine], 0, 0, 0, 0⟩

def workerName : String := "worker"

theorem listGetD_cons_succ {α : Type} (b : α) (bs : List α) (n : Nat) (d : α) :
    (b :: bs).getD (n + 1) d = bs.getD n d := rfl

theorem listGetD_cons_zero {α : Type} (b : α) (bs : List α) (d : α) :
    (b :: bs).getD 0 d = b := rfl

theorem listGetD_ge {α : Type} (l : List α) (i : Nat) (d : α) (h : ¬ i < l.length) :
    l.getD i d = d := by
  induction l generalizing i with
  | nil => cases i <;> rfl
  | cons b bs ih =>
    cases i with
    | zero => exact absurd (by simp) h
    | succ n =>
      rw [listGetD_cons_succ]
      exact ih n (fun hlt => h (by simpa using Nat.succ_lt_succ hlt))

theorem listGetD_set_self {α : Type} (l : List α) (i : Nat) (a d : α) (h : i < l.length) :
    (l.set i a).getD i d = a := by
  induction l generalizing i with
  | nil => simp at h
  | cons b bs ih =>
    cases i with
    | zero => rfl
    | succ n => exact ih n (by simpa using h)

theorem listGetD_set_ne {α : Type} (l : List α) (i j : Nat) (a d : α) (h : i ≠ j) :
    (l.set i a).getD j d = l.getD j d := by
  induction l generalizing i j with
  | nil => rfl
  | cons b bs ih =>
    cases i with
    | zero =>
      cases j with
      | zero => exact absurd rfl h
      | succ mj => rfl
    | succ ni =>
      cases j with
      | zero => rfl
      | succ mj =>
        rw [List.set_cons_succ, listGetD_cons_succ, listGetD_cons_succ]
        exact ih ni mj (fun e => h (by rw [e]))

theorem listGetD_mem {α : Type} (l : List α) (i : Nat) (d : α) (h : i < l.length) :
    l.getD i d ∈ l := by
  induction l generalizing i with
  | nil => simp at h
  | cons b bs ih =>
    cases i with
    | zero => exact List.mem_cons_self b bs
    | succ n => exact List.mem_cons_of_mem _ (ih n (by simpa using h))

theorem listGetD_map {α β : Type} (f : α → β) (l : List α) (i : Nat) (d : α) (d2 : β)
    (h : i < l.length) : (l.map f).getD i d2 = f (l.getD i d) := by
  induction l generalizing i with
  | nil => simp at h
  | cons b bs ih =>
    cases i with
    | zero => rfl
    | succ n => exact ih n (by simpa using h)

theorem forall_mem_of_getD {α : Type} (l : List α) (d : α) (P : α → Prop)
    (h : ∀ j, j < l.length → P (l.getD j d)) : ∀ x ∈ l, P x := by
  induction l with
  | nil => intro x hx; simp at hx
  | cons b bs ih =>
    intro x hx
    rcases List.mem_cons.mp hx with rfl | hx2
    · simpa using h 0 (by simp)
    · exact ih (fun j hj => by simpa using h (j + 1) (by simpa using Nat.succ_lt_succ hj)) x hx2

/-- Claim C3: the claim asks for normalized channels r over 255, g over 255,
b over 255; the code instead computes 255 over each channel (src/ui.rs line
208).  At the packed color 0x020304 the code yields the pair-wise inverted
triple, which differs from the claimed value, so the decomposition
contradicts the documented intent. -/
theorem split_color_inverts :
    split_color 0x020304 = ⟨255 / 2, 255 / 3, 255 / 4⟩ ∧
    split_color 0x020304 ≠ ⟨2 / 255, 3 / 255, 4 / 255⟩ := by
  have e1 : ((0x020304 : Nat) >>> 16) &&& 0xff = 2 := by decide
  have e2 : ((0x020304 : Nat) >>> 8) &&& 0xff = 3 := by decide
  have e3 : (0x020304 : Nat) &&& 0xff = 4 := by decide
  have h : split_color 0x020304 = ⟨255 / 2, 255 / 3, 255 / 4⟩ := by
    simp only [split_color, e1, e2, e3]
    norm_num
  refine ⟨h, ?_⟩
  rw [h]
  intro hc
  have hr := congrArg Color.r hc
  norm_num at hr

/-- Claim C5: a key name starting with the keypad marker is forwarded with
its first three characters removed, and any other key name is forwarded
verbatim (src/ui.rs lines 99 to 103). -/
theorem gtk_key_press_strips_keypad (t s : List Char)
    (h : List.isPrefixOf ['K', 'P', '_'] s = false) :
    gtk_key_press (['K', 'P', '_'] ++ t) = t ∧ gtk_key_press s = s := by
  constructor
  · have hp : List.isPrefixOf ['K', 'P', '_'] (['K', 'P', '_'] ++ t) = true := by
      simp [List.isPrefixOf]
    simp [gtk_key_press, hp]
  · simp [gtk_key_press, h]

theorem gtk_key_press_strips_keypad_witness :
    List.isPrefixOf ['K', 'P', '_'] ['a'] = false ∧
    (gtk_key_press (['K', 'P', '_'] ++ ['7']) = ['7'] ∧ gtk_key_press ['a'] = ['a']) :=
  ⟨by decide, gtk_key_press_strips_keypad ['7'] ['a'] (by decide)⟩

/-- Claim C9: constructing the UI singleton on a thread whose name differs
from the main-thread name fails with the panic message, and construction on
the main thread succeeds and yields the fresh Ui (src/ui.rs lines 20 to
27). -/
theorem UI_main_thread_check (t : Option String) (h : t ≠ main_thread_name) :
    (∃ e, UI_init t = Except.error e) ∧ UI_init main_thread_name = Except.ok Ui.new := by
  constructor
  · refine ⟨uiPanicMsg, ?_⟩
    rw [UI_init, if_pos]
    exact h
  · rw [UI_init, if_neg]
    simp [main_thread_name]

theorem UI_main_thread_check_witness :
    some workerName ≠ main_thread_name ∧
    ((∃ e, UI_init (some workerName) = Except.error e) ∧
      UI_init main_thread_name = Except.ok Ui.new) :=
  ⟨by decide, UI_main_thread_check (some workerName) (by decide)⟩

/-- Claim C2: a line whose dirty_line flag is false passes through
shape_dirty unchanged in every component, and the instrumented shape pass
performs zero units of itemization and shaping work on it (the guard at
src/render/mod.rs line 101). -/
theorem shape_dirty_skips_clean_line (cm : ColorModel) (m : UiModel) (i : Nat)
    (h : (m.model.getD i Line.empty).dirty_line = false) :
    (shape_dirty cm m).model.getD i Line.empty = m.model.getD i Line.empty ∧
    shapeLineInstr cm (m.model.getD i Line.empty) = (m.model.getD i Line.empty, 0) := by
  have hline : ∀ l : Line, l.dirty_line = false → shapeLine cm l = l := by
    intro l hl
    simp [shapeLine, hl]
  have hcond : ¬ ((m.model.getD i Line.empty).dirty_line = true) := by
    rw [h]
    simp
  refine ⟨?_, by rw [shapeLineInstr, if_neg hcond]⟩
  by_cases hi : i < m.model.length
  · have hm : (shape_dirty cm m).model.getD i Line.empty =
        shapeLine cm (m.model.getD i Line.empty) := by
      rw [shape_dirty]
      exact listGetD_map (shapeLine cm) m.model i Line.empty Line.empty hi
    rw [hm, hline _ h]
  · have h1 : (shape_dirty cm m).model.getD i Line.empty = Line.empty := by
      refine listGetD_ge _ _ _ ?_
      rw [shape_dirty]
      simpa using hi
    rw [h1, listGetD_ge _ _ _ hi]

theorem shape_dirty_skips_clean_line_witness :
    (witnessCleanModel.model.getD 0 Line.empty).dirty_line = false ∧
    ((shape_dirty witnessCM witnessCleanModel).model.getD 0 Line.empty =
        witnessCleanModel.model.getD 0 Line.empty ∧
      shapeLineInstr witnessCM (witnessCleanModel.model.getD 0 Line.empty) =
        (witnessCleanModel.model.getD 0 Line.empty, 0)) :=
  ⟨by decide, shape_dirty_skips_clean_line witnessCM witnessCleanModel 0 (by decide)⟩

theorem lookup_eraseAll_ne (k k2 : String) (m : List (String × Value)) (h : k ≠ k2) :
    List.lookup k (eraseAll m k2) = List.lookup k m := by
  induction m with
  | nil => rfl
  | cons p rest ih =>
    obtain ⟨a, v⟩ := p
    simp only [eraseAll] at ih ⊢
    by_cases ha : a = k2
    · subst ha
      simp [List.filter_cons, List.lookup, show (k == a) = false from by
        simp [h], ih]
    · by_cases hk : k = a
      · subst hk
        simp [List.filter_cons, List.lookup, ha]
      · simp [List.filter_cons, List.lookup, ha, show (k == a) = false from by
          simp [hk], ih]

theorem lookup_eraseAll_self (k : String) (m : List (String × Value)) :
    List.lookup k (eraseAll m k) = none := by
  induction m with
  | nil => rfl
  | cons p rest ih =>
    obtain ⟨a, v⟩ := p
    simp only [eraseAll] at ih ⊢
    by_cases ha : a = k
    · subst ha
      simp [List.filter_cons, ih]
    · simp [List.filter_cons, ha, List.lookup, show (k == a) = false from by
        simp [Ne.symm ha], ih]

theorem resolve_swap_of_reverse (m : List (String × Value))
    (h : (List.lookup keyReverse m).isSome = true) :
    resolveHighlightAttrs m =
      { resolveHighlightAttrs (eraseAll m keyReverse) with
        foreground := (resolveHighlightAttrs (eraseAll m keyReverse)).background,
        background := (resolveHighlightAttrs (eraseAll m keyReverse)).foreground } := by
  have hfg := lookup_eraseAll_ne keyForeground keyReverse m (by decide)
  have hbg := lookup_eraseAll_ne keyBackground keyReverse m (by decide)
  have hbold := lookup_eraseAll_ne keyBold keyReverse m (by decide)
  have hital := lookup_eraseAll_ne keyItalic keyReverse m (by decide)
  have hrev := lookup_eraseAll_self keyReverse m
  simp only [resolveHighlightAttrs, hfg, hbg, hbold, hital, hrev, h,
    Option.isSome_none, Option.isSome_some]
  simp

theorem resolve_bold_default (m : List (String × Value))
    (hb : List.lookup keyBold m = none) :
    (resolveHighlightAttrs m).bold = Attrs.new.bold := by
  simp only [resolveHighlightAttrs, hb, Option.isSome_none]
  simp [Attrs.new]

theorem resolve_italic_default (m : List (String × Value))
    (hi : List.lookup keyItalic m = none) :
    (resolveHighlightAttrs m).italic = Attrs.new.italic := by
  simp only [resolveHighlightAttrs, hi, Option.isSome_none]
  simp [Attrs.new]

theorem resolve_fg_default (m : List (String × Value))
    (hr : List.lookup keyReverse m = none) (hf : List.lookup keyForeground m = none) :
    (resolveHighlightAttrs m).foreground = Attrs.new.foreground := by
  simp only [resolveHighlightAttrs, hf, hr, Option.isSome_none]
  cases hb : List.lookup keyBackground m with
  | none => simp
  | some v =>
    rcases v with i | b | s | _
    · rcases i with n | n <;> simp
    · simp
    · simp
    · simp

theorem resolve_bg_default (m : List (String × Value))
    (hr : List.lookup keyReverse m = none) (hb : List.lookup keyBackground m = none) :
    (resolveHighlightAttrs m).background = Attrs.new.background := by
  simp only [resolveHighlightAttrs, hb, hr, Option.isSome_none]
  cases hf : List.lookup keyForeground m with
  | none => simp
  | some v =>
    rcases v with i | b2 | s | _
    · rcases i with n | n <;> simp
    · simp
    · simp
    · simp

/-- Claim C4: when the attribute map contains the reverse key, the pending
attribute set stored by on_highlight_set carries the swapped pair of the
colors that the same map without the reverse key would resolve, defaults
included (src/ui.rs lines 195 to 197). -/
theorem highlight_reverse_swaps (u : Ui) (m : List (String × Value))
    (h : (List.lookup keyReverse m).isSome = true) :
    (u.on_highlight_set m).cur_attrs =
      some { resolveHighlightAttrs (eraseAll m keyReverse) with
             foreground := (resolveHighlightAttrs (eraseAll m keyReverse)).background,
             background := (resolveHighlightAttrs (eraseAll m keyReverse)).foreground } :=
  congrArg some (resolve_swap_of_reverse m h)

theorem highlight_reverse_swaps_witness :
    (List.lookup keyReverse [(keyReverse, Value.Nil)]).isSome = true ∧
    (Ui.new.on_highlight_set [(keyReverse, Value.Nil)]).cur_attrs =
      some { resolveHighlightAttrs (eraseAll [(keyReverse, Value.Nil)] keyReverse) with
             foreground :=
               (resolveHighlightAttrs (eraseAll [(keyReverse, Value.Nil)] keyReverse)).background,
             background :=
               (resolveHighlightAttrs (eraseAll [(keyReverse, Value.Nil)] keyReverse)).foreground } :=
  ⟨by decide, highlight_reverse_swaps Ui.new [(keyReverse, Value.Nil)] (by decide)⟩

/-- Claim C6: a highlight-set event is total and best-effort per field: an
entry under an unrecognized key is ignored entirely, and a foreground or
background entry whose value is not an unsigned integer acts exactly as if
the key were absent, leaving that field at its default while the other
fields still update (the pattern guards of src/ui.rs lines 189 to 199). -/
theorem highlight_set_best_effort :
    (∀ (m : List (String × Value)) (k : String) (v : Value),
      k ∉ recognizedHighlightKeys →
      resolveHighlightAttrs ((k, v) :: m) = resolveHighlightAttrs m) ∧
    (∀ (m : List (String × Value)) (v : Value), v.isU64 = false →
      resolveHighlightAttrs ((keyForeground, v) :: m) =
        resolveHighlightAttrs (eraseAll m keyForeground)) ∧
    (∀ (m : List (String × Value)) (v : Value), v.isU64 = false →
      resolveHighlightAttrs ((keyBackground, v) :: m) =
        resolveHighlightAttrs (eraseAll m keyBackground)) := by
  refine ⟨?_, ?_, ?_⟩
  · intro m k v hk
    simp only [recognizedHighlightKeys, List.mem_cons, List.not_mem_nil, or_false,
      not_or] at hk
    obtain ⟨h1, h2, h3, h4, h5⟩ := hk
    have e1 : (keyForeground == k) = false := by simp [Ne.symm h1]
    have e2 : (keyBackground == k) = false := by simp [Ne.symm h2]
    have e3 : (keyReverse == k) = false := by simp [Ne.symm h3]
    have e4 : (keyBold == k) = false := by simp [Ne.symm h4]
    have e5 : (keyItalic == k) = false := by simp [Ne.symm h5]
    by_cases hr : (List.lookup keyReverse m).isSome = true
    · simp [resolveHighlightAttrs, List.lookup, e1, e2, e3, e4, e5, hr]
    · simp [resolveHighlightAttrs, List.lookup, e1, e2, e3, e4, e5, hr]
  · intro m v hv
    have hfE := lookup_eraseAll_self keyForeground m
    have e1 := lookup_eraseAll_ne keyBackground keyForeground m (by decide)
    have e2 := lookup_eraseAll_ne keyReverse keyForeground m (by decide)
    have e3 := lookup_eraseAll_ne keyBold keyForeground m (by decide)
    have e4 := lookup_eraseAll_ne keyItalic keyForeground m (by decide)
    have s1 : (keyBackground == keyForeground) = false := by decide
    have s2 : (keyReverse == keyForeground) = false := by decide
    have s3 : (keyBold == keyForeground) = false := by decide
    have s4 : (keyItalic == keyForeground) = false := by decide
    rcases v with i | b2 | s | _
    · rcases i with n | n
      · simp [Value.isU64] at hv
      · by_cases hr : (List.lookup keyReverse m).isSome = true <;>
          simp [resolveHighlightAttrs, List.lookup, hfE, e1, e2, e3, e4,
            s1, s2, s3, s4, hr]
    · by_cases hr : (List.lookup keyReverse m).isSome = true <;>
        simp [resolveHighlightAttrs, List.lookup, hfE, e1, e2, e3, e4,
          s1, s2, s3, s4, hr]
    · by_cases hr : (List.lookup keyReverse m).isSome = true <;>
        simp [resolveHighlightAttrs, List.lookup, hfE, e1, e2, e3, e4,
          s1, s2, s3, s4, hr]
    · by_cases hr : (List.lookup keyReverse m).isSome = true <;>
        simp [resolveHighlightAttrs, List.lookup, hfE, e1, e2, e3, e4,
          s1, s2, s3, s4, hr]
  · intro m v hv
    have hbE := lookup_eraseAll_self keyBackground m
    have e1 := lookup_eraseAll_ne keyForeground keyBackground m (by decide)
    have e2 := lookup_eraseAll_ne keyReverse keyBackground m (by decide)
    have e3 := lookup_eraseAll_ne keyBold keyBackground m (by decide)
    have e4 := lookup_eraseAll_ne keyItalic keyBackground m (by decide)
    have s1 : (keyForeground == keyBackground) = false := by decide
    have s2 : (keyReverse == keyBackground) = false := by decide
    have s3 : (keyBold == keyBackground) = false := by decide
    have s4 : (keyItalic == keyBackground) = false := by decide
    rcases v with i | b2 | s | _
    · rcases i with n | n
      · simp [Value.isU64] at hv
      · by_cases hr : (List.lookup keyReverse m).isSome = true <;>
          simp [resolveHighlightAttrs, List.lookup, hbE, e1, e2, e3, e4,
            s1, s2, s3, s4, hr]
    · by_cases hr : (List.lookup keyReverse m).isSome = true <;>
        simp [resolveHighlightAttrs, List.lookup, hbE, e1, e2, e3, e4,
          s1, s2, s3, s4, hr]
    · by_cases hr : (List.lookup keyReverse m).isSome = true <;>
        simp [resolveHighlightAttrs, List.lookup, hbE, e1, e2, e3, e4,
          s1, s2, s3, s4, hr]
    · by_cases hr : (List.lookup keyReverse m).isSome = true <;>
        simp [resolveHighlightAttrs, List.lookup, hbE, e1, e2, e3, e4,
          s1, s2, s3, s4, hr]

theorem highlight_set_best_effort_witness :
    (workerName ∉ recognizedHighlightKeys ∧
      resolveHighlightAttrs [(workerName, Value.Nil)] = resolveHighlightAttrs []) ∧
    (Value.Nil.isU64 = false ∧
      resolveHighlightAttrs [(keyForeground, Value.Nil)] =
        resolveHighlightAttrs (eraseAll [] keyForeground)) :=
  ⟨⟨by decide, highlight_set_best_effort.1 [] workerName Value.Nil (by decide)⟩,
   ⟨rfl, highlight_set_best_effort.2.1 [] Value.Nil rfl⟩⟩

/-- Claim C10 fails as stated: with the map holding only the reverse key,
the foreground key is absent, yet the pending foreground is not the
built-in default, because the reverse swap installs the resolved background
there (src/ui.rs lines 195 to 197). -/
theorem highlight_absent_key_counterexample :
    List.lookup keyForeground [(keyReverse, Value.Nil)] = none ∧
    (Ui.new.on_highlight_set [(keyReverse, Value.Nil)]).cur_attrs =
      some (resolveHighlightAttrs [(keyReverse, Value.Nil)]) ∧
    (resolveHighlightAttrs [(keyReverse, Value.Nil)]).foreground ≠ Attrs.new.foreground := by
  refine ⟨by decide, rfl, by decide⟩

/-- Claim C10 (amended): every highlight-set event computes the pending
attribute set from the event map alone, independent of any earlier state;
bold and italic default to off when their keys are absent; when the map
lacks the reverse key, an absent foreground or background key leaves that
color at the built-in default; when reverse is present, the pair the map
without reverse would resolve is swapped wholesale, so an absent foreground
takes the resolved (or default) background and an absent background takes
the resolved (or default) foreground. -/
theorem highlight_set_replaces_pending (u1 u2 : Ui) (m : List (String × Value)) :
    (u1.on_highlight_set m).cur_attrs = (u2.on_highlight_set m).cur_attrs ∧
    (List.lookup keyBold m = none → (resolveHighlightAttrs m).bold = Attrs.new.bold) ∧
    (List.lookup keyItalic m = none → (resolveHighlightAttrs m).italic = Attrs.new.italic) ∧
    (List.lookup keyReverse m = none → List.lookup keyForeground m = none →
      (resolveHighlightAttrs m).foreground = Attrs.new.foreground) ∧
    (List.lookup keyReverse m = none → List.lookup keyBackground m = none →
      (resolveHighlightAttrs m).background = Attrs.new.background) ∧
    ((List.lookup keyReverse m).isSome = true →
      (resolveHighlightAttrs m).foreground =
          (resolveHighlightAttrs (eraseAll m keyReverse)).background ∧
        (resolveHighlightAttrs m).background =
          (resolveHighlightAttrs (eraseAll m keyReverse)).foreground) := by
  refine ⟨rfl, resolve_bold_default m, resolve_italic_default m,
    resolve_fg_default m, resolve_bg_default m, ?_⟩
  intro hrev
  rw [resolve_swap_of_reverse m hrev]
  exact ⟨rfl, rfl⟩

theorem highlight_set_replaces_pending_witness :
    (Ui.new.on_highlight_set []).cur_attrs =
      ((⟨UiModel.empty, some Attrs.new⟩ : Ui).on_highlight_set []).cur_attrs ∧
    (resolveHighlightAttrs []).bold = Attrs.new.bold ∧
    (resolveHighlightAttrs []).foreground = Attrs.new.foreground ∧
    ((resolveHighlightAttrs [(keyReverse, Value.Nil)]).foreground =
        (resolveHighlightAttrs (eraseAll [(keyReverse, Value.Nil)] keyReverse)).background ∧
      (resolveHighlightAttrs [(keyReverse, Value.Nil)]).background =
        (resolveHighlightAttrs (eraseAll [(keyReverse, Value.Nil)] keyReverse)).foreground) :=
  ⟨(highlight_set_replaces_pending Ui.new ⟨UiModel.empty, some Attrs.new⟩ []).1,
   (highlight_set_replaces_pending Ui.new ⟨UiModel.empty, some Attrs.new⟩ []).2.1 rfl,
   (highlight_set_replaces_pending Ui.new ⟨UiModel.empty, some Attrs.new⟩ []).2.2.2.1 rfl rfl,
   (highlight_set_replaces_pending Ui.new Ui.new [(keyReverse, Value.Nil)]).2.2.2.2.2
     (by decide)⟩

theorem putLine_untouched (cells : List Cell) (col : Nat) (text : List Char) (a : Attrs)
    (h : text = [] ∨ ¬ col < cells.length) :
    putLine cells col text a = cells := by
  cases text with
  | nil => rfl
  | cons c rest =>
    rcases h with h | h
    · simp at h
    · simp [putLine, h]

theorem dirtyOk_put (m : UiModel) (text : List Char) (attrs : Option Attrs)
    (h : m.dirtyOk) : (m.put text attrs).dirtyOk := by
  intro l hl
  simp only [UiModel.put] at hl
  rcases List.mem_or_eq_of_mem_set hl with hmem | rfl
  · exact h l hmem
  · by_cases ht : (!text.isEmpty &&
        decide (m.write_col < (m.model.getD m.write_row Line.empty).line.length)) = true
    · intro _
      show ((m.model.getD m.write_row Line.empty).dirty_line ||
        (!text.isEmpty &&
          decide (m.write_col < (m.model.getD m.write_row Line.empty).line.length))) = true
      rw [ht, Bool.or_true]
    · have hcases : text = [] ∨
          ¬ m.write_col < (m.model.getD m.write_row Line.empty).line.length := by
        rcases text with _ | ⟨c, rest⟩
        · exact Or.inl rfl
        · right
          intro hlt
          refine ht ?_
          rw [Bool.and_eq_true]
          exact ⟨by simp, decide_eq_true hlt⟩
      have hcells : putLine (m.model.getD m.write_row Line.empty).line m.write_col text
          (attrs.getD Attrs.new) = (m.model.getD m.write_row Line.empty).line :=
        putLine_untouched _ _ _ _ hcases
      have ht2 : (!text.isEmpty &&
          decide (m.write_col < (m.model.getD m.write_row Line.empty).line.length)) = false := by
        simpa using ht
      intro hex
      simp only [hcells] at hex
      simp only [ht2, Bool.or_false]
      by_cases hw : m.write_row < m.model.length
      · exact h (m.model.getD m.write_row Line.empty) (listGetD_mem _ _ _ hw) hex
      · have he : m.model.getD m.write_row Line.empty = Line.empty := listGetD_ge _ _ _ hw
        rw [he] at hex
        simp [Line.empty] at hex

theorem dirtyOk_clear (m : UiModel) : m.clear.dirtyOk := by
  intro l hl
  simp only [UiModel.clear] at hl
  rcases List.mem_map.mp hl with ⟨l0, _, rfl⟩
  intro _
  rfl

theorem dirtyOk_new (rows columns : Nat) : (UiModel.new rows columns).dirtyOk := by
  intro l hl
  simp only [UiModel.new] at hl
  have he := List.eq_of_mem_replicate hl
  intro _
  rw [he]

theorem dirtyOk_event (u : Ui) (e : RedrawEvent) (h : u.model.dirtyOk) :
    (u.applyEvent e).model.dirtyOk := by
  cases e with
  | cursor_goto row col => exact h
  | put text => exact dirtyOk_put u.model text u.cur_attrs h
  | clear => exact dirtyOk_clear u.model
  | resize columns rows => exact dirtyOk_new rows columns
  | highlight_set attrs => exact h

theorem dirtyOk_events (evs : List RedrawEvent) (u : Ui) (h : u.model.dirtyOk) :
    (Ui.applyEvents evs u).model.dirtyOk := by
  induction evs generalizing u with
  | nil => exact h
  | cons e rest ih => exact ih (u.applyEvent e) (dirtyOk_event u e h)

theorem shapeStep_cells (styled : StyledLine) (i : Nat) (l : Line) :
    (if (l.cellAt i).dirty then
        match l.get_item i with
        | some item => l.setItemGlyphs i (pango_shape styled.line_str item.offset item.length)
        | none => l
      else l).line = l.line := by
  by_cases hd : (l.cellAt i).dirty = true
  · rw [if_pos hd]
    cases hg : l.get_item i with
    | some item => rfl
    | none => rfl
  · rw [if_neg hd]

theorem shapeStep_cellAt (styled : StyledLine) (i j : Nat) (l : Line) :
    (if (l.cellAt i).dirty then
        match l.get_item i with
        | some item => l.setItemGlyphs i (pango_shape styled.line_str item.offset item.length)
        | none => l
      else l).cellAt j = l.cellAt j := by
  by_cases hd : (l.cellAt i).dirty = true
  · rw [if_pos hd]
    cases hg : l.get_item i with
    | some item => rfl
    | none => rfl
  · rw [if_neg hd]

theorem shapeStep_length (styled : StyledLine) (i : Nat) (l : Line) :
    (if (l.cellAt i).dirty then
        match l.get_item i with
        | some item => l.setItemGlyphs i (pango_shape styled.line_str item.offset item.length)
        | none => l
      else l).line.length = l.line.length := by
  rw [shapeStep_cells]

theorem setCellDirty_cellAt_ne (l : Line) (i j : Nat) (b : Bool) (h : i ≠ j) :
    (l.setCellDirty i b).cellAt j = l.cellAt j := by
  simp only [Line.cellAt, Line.setCellDirty]
  exact listGetD_set_ne _ i j _ _ h

theorem setCellDirty_cellAt_self (l : Line) (i : Nat) (b : Bool) (h : i < l.line.length) :
    (l.setCellDirty i b).cellAt i = { l.line.getD i Cell.blank with dirty := b } := by
  simp only [Line.cellAt, Line.setCellDirty]
  exact listGetD_set_self _ i _ _ h

theorem setCellDirty_length (l : Line) (i : Nat) (b : Bool) :
    (l.setCellDirty i b).line.length = l.line.length := by
  simp [Line.setCellDirty]

theorem shapeCells_line_length (styled : StyledLine) :
    ∀ n i l, (shapeCells styled n i l).line.length = l.line.length := by
  intro n
  induction n with
  | zero => intro i l; rfl
  | succ n ih =>
    intro i l
    simp only [shapeCells]
    rw [ih]
    simp [Line.setCellDirty, List.length_set, shapeStep_cells]

theorem shapeCells_cellAt_lower (styled : StyledLine) :
    ∀ n i l j, j < i → (shapeCells styled n i l).cellAt j = l.cellAt j := by
  intro n
  induction n with
  | zero => intro i l j hj; rfl
  | succ n ih =>
    intro i l j hj
    simp only [shapeCells]
    rw [ih (i + 1) _ j (Nat.lt_succ_of_lt hj)]
    rw [setCellDirty_cellAt_ne _ i j _ (by omega)]
    exact shapeStep_cellAt styled i j l

theorem shapeCells_cellAt_dirty (styled : StyledLine) :
    ∀ n i l j, i ≤ j → j < i + n → j < l.line.length →
      ((shapeCells styled n i l).cellAt j).dirty = false := by
  intro n
  induction n with
  | zero => intro i l j h1 h2 h3; omega
  | succ n ih =>
    intro i l j h1 h2 h3
    simp only [shapeCells]
    rcases Nat.eq_or_lt_of_le h1 with heq | hlt
    · subst heq
      rw [shapeCells_cellAt_lower styled n (i + 1) _ i (Nat.lt_succ_self i)]
      rw [setCellDirty_cellAt_self]
      rw [shapeStep_length]
      exact h3
    · refine ih (i + 1) _ j hlt (by omega) ?_
      rw [setCellDirty_length, shapeStep_length]
      exact h3

theorem shapeLine_dirty_eq (cm : ColorModel) (l : Line) (hd : l.dirty_line = true) :
    shapeLine cm l =
      ⟨(shapeCells (StyledLine.fromLine l cm)
          (l.merge (StyledLine.fromLine l cm) (itemize (StyledLine.fromLine l cm))).line.length 0
          (l.merge (StyledLine.fromLine l cm) (itemize (StyledLine.fromLine l cm)))).line,
        (shapeCells (StyledLine.fromLine l cm)
          (l.merge (StyledLine.fromLine l cm) (itemize (StyledLine.fromLine l cm))).line.length 0
          (l.merge (StyledLine.fromLine l cm) (itemize (StyledLine.fromLine l cm)))).item_line,
        false⟩ := by
  unfold shapeLine
  rw [if_pos hd]

theorem shapeLine_clean (cm : ColorModel) (l : Line) (hOk : l.dirtyOk) :
    (shapeLine cm l).dirty_line = false ∧
    ∀ cell ∈ (shapeLine cm l).line, cell.dirty = false := by
  by_cases hd : l.dirty_line = true
  · rw [shapeLine_dirty_eq cm l hd]
    refine ⟨rfl, ?_⟩
    refine forall_mem_of_getD _ Cell.blank (fun c => c.dirty = false) ?_
    intro j hj
    have hlen := shapeCells_line_length (StyledLine.fromLine l cm)
      (l.merge (StyledLine.fromLine l cm) (itemize (StyledLine.fromLine l cm))).line.length 0
      (l.merge (StyledLine.fromLine l cm) (itemize (StyledLine.fromLine l cm)))
    have hj2 : j < (l.merge (StyledLine.fromLine l cm)
        (itemize (StyledLine.fromLine l cm))).line.length := by
      rw [← hlen]
      simpa using hj
    exact shapeCells_cellAt_dirty (StyledLine.fromLine l cm) _ 0 _ j (Nat.zero_le j)
      (by omega) hj2
  · have hd2 : l.dirty_line = false := by simpa using hd
    have hsl : shapeLine cm l = l := by
      unfold shapeLine
      rw [if_neg hd]
    rw [hsl]
    refine ⟨hd2, ?_⟩
    intro cell hc
    by_contra hcd
    have hdt : cell.dirty = true := by simpa using hcd
    have hcontra := hOk ⟨cell, hc, hdt⟩
    rw [hd2] at hcontra
    cases hcontra

/-- Claim C1: starting from the freshly constructed Ui, after any sequence
of incoming events one call of shape_dirty leaves no cell dirty and every
dirty_line flag false (src/render/mod.rs lines 95 to 132, using the
dirty-domination invariant maintained by every event handler). -/
theorem shape_dirty_converges (cm : ColorModel) (evs : List RedrawEvent) :
    (shape_dirty cm (Ui.applyEvents evs Ui.new).model).allClean := by
  have hOk : (Ui.applyEvents evs Ui.new).model.dirtyOk :=
    dirtyOk_events evs Ui.new (by
      intro l hl
      simp [Ui.new, UiModel.empty, UiModel.new] at hl)
  intro l hl
  simp only [shape_dirty] at hl
  rcases List.mem_map.mp hl with ⟨l0, hl0, rfl⟩
  exact shapeLine_clean cm l0 (hOk l0 hl0)

theorem renderColsSt_spec (cm : ColorModel) (ms : CellMetrics) (crow ccol row : Nat)
    (l : Line) :
    ∀ n col x y st, renderColsSt cm ms crow ccol row l n col x y st =
      ⟨st.grid, st.ops ++ colsOps cm ms crow ccol row l n col x y⟩ := by
  intro n
  induction n with
  | zero =>
    intro col x y st
    simp [renderColsSt, colsOps]
  | succ n ih =>
    intro col x y st
    simp only [renderColsSt, colsOps]
    rw [ih]
    simp [List.append_assoc]

theorem renderRowsSt_spec (cm : ColorModel) (ms : CellMetrics) (crow ccol : Nat) :
    ∀ lines row y st, renderRowsSt cm ms crow ccol lines row y st =
      ⟨st.grid, st.ops ++ rowsOps cm ms crow ccol lines row y⟩ := by
  intro lines
  induction lines with
  | nil =>
    intro row y st
    simp [renderRowsSt, rowsOps]
  | cons l rest ih =>
    intro row y st
    simp only [renderRowsSt, rowsOps]
    rw [renderColsSt_spec, ih]
    simp [List.append_assoc]

/-- Claim C7: the paint phase threads the grid through every painted cell
untouched: the grid after render equals the grid before it, and the only
effect is a suffix of draw operations appended to the surface
(src/render/mod.rs lines 15 to 93, where the model is only read). -/
theorem render_preserves_grid (cm : ColorModel) (ms : CellMetrics) (st : RenderState) :
    (render cm ms st).grid = st.grid ∧
    ∃ ops, (render cm ms st).ops = st.ops ++ ops := by
  simp only [render]
  rw [renderRowsSt_spec]
  refine ⟨rfl, DrawOp.paintAll cm.bg_color ::
    rowsOps cm ms st.grid.get_cursor.1 st.grid.get_cursor.2 st.grid.model 0 0, ?_⟩
  simp

theorem cellContent_no_cursor (cm : ColorModel) (ms : CellMetrics) (l : Line) (col : Nat)
    (x y : ℚ) :
    (cellContentOps cm ms l col x y).filter DrawOp.isCursor = [] := by
  simp only [cellContentOps]
  cases hit : l.item_line.getD col none with
  | some item =>
    cases hbg : (cm.cell_colors (l.cellAt col)).1 with
    | some bg => cases hg : item.glyphs <;> simp [hbg, hg, DrawOp.isCursor, List.filter]
    | none => cases hg : item.glyphs <;> simp [hbg, hg, DrawOp.isCursor, List.filter]
  | none =>
    by_cases hb : l.is_binded_to_item col = true
    · simp [hb]
    · cases hbg : cm.cell_bg (l.cellAt col) <;>
        simp [hb, hbg, DrawOp.isCursor, List.filter]

theorem cursorOpIf_miss (cm : ColorModel) (crow ccol row col : Nat) (l : Line) (x y : ℚ)
    (h : ¬ (row = crow ∧ col = ccol)) :
    cursorOpIf cm crow ccol row col l x y = [] := by
  simp [cursorOpIf, h]

theorem cursorOpIf_hit (cm : ColorModel) (crow ccol : Nat) (l : Line) (x y : ℚ) :
    cursorOpIf cm crow ccol crow ccol l x y =
      [DrawOp.cursor x y (cm.actual_cell_bg (l.cellAt ccol))] := by
  simp [cursorOpIf]

theorem colsOps_no_cursor_row (cm : ColorModel) (ms : CellMetrics) (crow ccol row : Nat)
    (l : Line) (hrow : row ≠ crow) :
    ∀ n col x y, (colsOps cm ms crow ccol row l n col x y).filter DrawOp.isCursor = [] := by
  intro n
  induction n with
  | zero => intro col x y; simp [colsOps]
  | succ n ih =>
    intro col x y
    simp only [colsOps]
    rw [List.filter_append, List.filter_append, cellContent_no_cursor,
      cursorOpIf_miss cm crow ccol row col l x y (fun hc => hrow hc.1), ih]
    rfl

theorem colsOps_no_cursor_high (cm : ColorModel) (ms : CellMetrics) (crow ccol : Nat)
    (l : Line) :
    ∀ n col x y, ccol < col →
      (colsOps cm ms crow ccol crow l n col x y).filter DrawOp.isCursor = [] := by
  intro n
  induction n with
  | zero => intro col x y h; simp [colsOps]
  | succ n ih =>
    intro col x y h
    simp only [colsOps]
    rw [List.filter_append, List.filter_append, cellContent_no_cursor,
      cursorOpIf_miss cm crow ccol crow col l x y (fun hc => absurd hc.2 (by omega)),
      ih (col + 1) (x + ms.char_width) y (by omega)]
    rfl

theorem colsOps_cursor_split (cm : ColorModel) (ms : CellMetrics) (crow ccol : Nat)
    (l : Line) :
    ∀ d n col x y, ccol = col + d → d < n →
      ∃ pre post,
        colsOps cm ms crow ccol crow l n col x y =
          pre ++ cellContentOps cm ms l ccol (x + (d : ℚ) * ms.char_width) y ++
            (DrawOp.cursor (x + (d : ℚ) * ms.char_width) y
              (cm.actual_cell_bg (l.cellAt ccol)) :: post) ∧
        pre.filter DrawOp.isCursor = [] ∧ post.filter DrawOp.isCursor = [] := by
  intro d
  induction d with
  | zero =>
    intro n col x y hc hn
    cases n with
    | zero => omega
    | succ n =>
      have hc2 : ccol = col := by omega
      subst hc2
      refine ⟨[], colsOps cm ms crow ccol crow l n (ccol + 1) (x + ms.char_width) y,
        ?_, rfl, ?_⟩
      · simp only [colsOps]
        rw [cursorOpIf_hit]
        have harith : x + ((0 : Nat) : ℚ) * ms.char_width = x := by push_cast; ring
        rw [harith]
        simp
      · exact colsOps_no_cursor_high cm ms crow ccol l n (ccol + 1) (x + ms.char_width) y
          (by omega)
  | succ d ih =>
    intro n col x y hc hn
    cases n with
    | zero => omega
    | succ n =>
      obtain ⟨pre, post, heq, hpre, hpost⟩ :=
        ih n (col + 1) (x + ms.char_width) y (by omega) (by omega)
      have harith : x + ms.char_width + (d : ℚ) * ms.char_width =
          x + ((d + 1 : Nat) : ℚ) * ms.char_width := by push_cast; ring
      rw [harith] at heq
      refine ⟨cellContentOps cm ms l col x y ++ cursorOpIf cm crow ccol crow col l x y ++ pre,
        post, ?_, ?_, hpost⟩
      · simp only [colsOps]
        rw [heq]
        simp [List.append_assoc]
      · rw [List.filter_append, List.filter_append, cellContent_no_cursor,
          cursorOpIf_miss cm crow ccol crow col l x y (fun hcc => absurd hcc.2 (by omega)),
          hpre]
        rfl

theorem rowsOps_no_cursor_low (cm : ColorModel) (ms : CellMetrics) (crow ccol : Nat) :
    ∀ lines row y, crow < row →
      (rowsOps cm ms crow ccol lines row y).filter DrawOp.isCursor = [] := by
  intro lines
  induction lines with
  | nil => intro row y h; simp [rowsOps]
  | cons l rest ih =>
    intro row y h
    simp only [rowsOps]
    rw [List.filter_append,
      colsOps_no_cursor_row cm ms crow ccol row l (by omega) l.line.length 0 0 y,
      ih (row + 1) (y + ms.line_height) (by omega)]
    rfl

theorem rowsOps_cursor_split (cm : ColorModel) (ms : CellMetrics) (crow ccol : Nat) :
    ∀ e lines row y, crow = row + e → e < lines.length →
      ∃ pre post,
        rowsOps cm ms crow ccol lines row y =
          pre ++ colsOps cm ms crow ccol crow (lines.getD e Line.empty)
              (lines.getD e Line.empty).line.length 0 0
              (y + (e : ℚ) * ms.line_height) ++ post ∧
        pre.filter DrawOp.isCursor = [] ∧ post.filter DrawOp.isCursor = [] := by
  intro e
  induction e with
  | zero =>
    intro lines row y hc hn
    cases lines with
    | nil => simp at hn
    | cons l rest =>
      have hc2 : crow = row := by omega
      subst hc2
      refine ⟨[], rowsOps cm ms crow ccol rest (crow + 1) (y + ms.line_height), ?_, rfl, ?_⟩
      · simp only [rowsOps]
        have harith : y + ((0 : Nat) : ℚ) * ms.line_height = y := by push_cast; ring
        rw [harith]
        simp [listGetD_cons_zero]
      · exact rowsOps_no_cursor_low cm ms crow ccol rest (crow + 1) (y + ms.line_height)
          (by omega)
  | succ e ih =>
    intro lines row y hc hn
    cases lines with
    | nil => simp at hn
    | cons l rest =>
      obtain ⟨pre, post, heq, hpre, hpost⟩ :=
        ih rest (row + 1) (y + ms.line_height) (by omega) (by simpa using hn)
      have harith : y + ms.line_height + (e : ℚ) * ms.line_height =
          y + ((e + 1 : Nat) : ℚ) * ms.line_height := by push_cast; ring
      rw [harith] at heq
      refine ⟨colsOps cm ms crow ccol row l l.line.length 0 0 y ++ pre, post, ?_, ?_, hpost⟩
      · simp only [rowsOps]
        rw [heq]
        simp [List.append_assoc, listGetD_cons_succ]
      · rw [List.filter_append,
          colsOps_no_cursor_row cm ms crow ccol row l (by omega) l.line.length 0 0 y, hpre]
        rfl

/-- Claim C8: with the display cursor inside grid bounds, one render pass
draws the cursor overlay exactly once, at the pixel position column times
char_width and row times line_height, and it is emitted immediately after
the paint operations of that same cell (src/render/mod.rs lines 41 to 92;
cursor::draw modelled from the spec as the single overlay operation). -/
theorem render_draws_cursor_once (cm : ColorModel) (ms : CellMetrics) (m : UiModel)
    (h1 : m.cursor_row < m.model.length)
    (h2 : m.cursor_col < (m.model.getD m.cursor_row Line.empty).line.length) :
    (render cm ms ⟨m, []⟩).ops.filter DrawOp.isCursor =
      [DrawOp.cursor ((m.cursor_col : ℚ) * ms.char_width)
        ((m.cursor_row : ℚ) * ms.line_height)
        (cm.actual_cell_bg ((m.model.getD m.cursor_row Line.empty).cellAt m.cursor_col))] ∧
    ∃ pre post,
      (render cm ms ⟨m, []⟩).ops =
        pre ++ cellContentOps cm ms (m.model.getD m.cursor_row Line.empty) m.cursor_col
            ((m.cursor_col : ℚ) * ms.char_width) ((m.cursor_row : ℚ) * ms.line_height) ++
          (DrawOp.cursor ((m.cursor_col : ℚ) * ms.char_width)
            ((m.cursor_row : ℚ) * ms.line_height)
            (cm.actual_cell_bg ((m.model.getD m.cursor_row Line.empty).cellAt m.cursor_col)) ::
            post) := by
  have hops : (render cm ms ⟨m, []⟩).ops =
      DrawOp.paintAll cm.bg_color :: rowsOps cm ms m.cursor_row m.cursor_col m.model 0 0 := by
    simp only [render]
    rw [renderRowsSt_spec]
    simp [UiModel.get_cursor]
  obtain ⟨preR, postR, heqR, hpreR, hpostR⟩ :=
    rowsOps_cursor_split cm ms m.cursor_row m.cursor_col m.cursor_row m.model 0 0
      (by omega) h1
  obtain ⟨preC, postC, heqC, hpreC, hpostC⟩ :=
    colsOps_cursor_split cm ms m.cursor_row m.cursor_col
      (m.model.getD m.cursor_row Line.empty) m.cursor_col
      (m.model.getD m.cursor_row Line.empty).line.length 0 0
      ((0 : ℚ) + (m.cursor_row : ℚ) * ms.line_height) (by omega) h2
  have hx : (0 : ℚ) + (m.cursor_col : ℚ) * ms.char_width =
      (m.cursor_col : ℚ) * ms.char_width := by ring
  have hy : (0 : ℚ) + (m.cursor_row : ℚ) * ms.line_height =
      (m.cursor_row : ℚ) * ms.line_height := by ring
  rw [hx, hy] at heqC
  rw [hy] at heqR
  rw [heqC] at heqR
  rw [heqR] at hops
  constructor
  · rw [hops]
    simp [List.filter_append, hpreR, hpreC, hpostC, hpostR, cellContent_no_cursor,
      DrawOp.isCursor]
  · refine ⟨DrawOp.paintAll cm.bg_color :: (preR ++ preC), postC ++ postR, ?_⟩
    rw [hops]
    simp [List.append_assoc]

theorem render_draws_cursor_once_witness :
    witnessGrid.cursor_row < witnessGrid.model.length ∧
    witnessGrid.cursor_col <
      (witnessGrid.model.getD witnessGrid.cursor_row Line.empty).line.length ∧
    ((render witnessCM witnessMS ⟨witnessGrid, []⟩).ops.filter DrawOp.isCursor =
      [DrawOp.cursor ((witnessGrid.cursor_col : ℚ) * witnessMS.char_width)
        ((witnessGrid.cursor_row : ℚ) * witnessMS.line_height)
        (witnessCM.actual_cell_bg
          ((witnessGrid.model.getD witnessGrid.cursor_row Line.empty).cellAt
            witnessGrid.cursor_col))] ∧
    ∃ pre post,
      (render witnessCM witnessMS ⟨witnessGrid, []⟩).ops =
        pre ++ cellContentOps witnessCM witnessMS
            (witnessGrid.model.getD witnessGrid.cursor_row Line.empty) witnessGrid.cursor_col
            ((witnessGrid.cursor_col : ℚ) * witnessMS.char_width)
            ((witnessGrid.cursor_row : ℚ) * witnessMS.line_height) ++
          (DrawOp.cursor ((witnessGrid.cursor_col : ℚ) * witnessMS.char_width)
            ((witnessGrid.cursor_row : ℚ) * witnessMS.line_height)
            (witnessCM.actual_cell_bg
              ((witnessGrid.model.getD witnessGrid.cursor_row Line.empty).cellAt
                witnessGrid.cursor_col)) :: post)) :=
  ⟨by decide, by decide,
   render_draws_cursor_once witnessCM witnessMS witnessGrid (by decide) (by decide)⟩
